import Mathlib

/-!
Verification of the in-memory keyed state engine of the Sahabat Nusantara
chat backend: the per-IP rate-limiting middleware
(`backend/middleware/rateLimit.js`) and the per-session conversation memory
(`backend/routes/chat.js`).

The JavaScript `Map` objects (`rateLimitStore`, `conversationMemory`) are
modelled as association lists in insertion order; `Map.set` on an existing
key replaces the value in place, on a fresh key appends at the end, matching
the JS iteration/insertion semantics.  Timestamps (`Date.now()` values) are
natural numbers of milliseconds; where the source subtracts two timestamps
the model subtracts over `Int` so that the comparison is exactly the
JavaScript number comparison.
-/

/-- Association-list model of a JavaScript `Map` with `String` keys. -/
abbrev Store (α : Type) := List (String × α)

/-- Model of `Map.prototype.get` (first entry with the key). -/
def storeFind {α : Type} (st : Store α) (k : String) : Option α :=
  (st.find? fun p => p.1 == k).map Prod.snd

/-- Model of `Map.prototype.has`. -/
def storeHas {α : Type} (st : Store α) (k : String) : Bool :=
  st.any fun p => p.1 == k

/-- Model of `Map.prototype.set`: replace in place when the key is present,
append otherwise. -/
def storeSet {α : Type} (st : Store α) (k : String) (v : α) : Store α :=
  if storeHas st k then st.map fun p => if p.1 == k then (k, v) else p
  else st ++ [(k, v)]

/-- Model of `Map.prototype.delete`. -/
def storeDelete {α : Type} (st : Store α) (k : String) : Store α :=
  st.filter fun p => !(p.1 == k)

/-! ## Rate limiter — `backend/middleware/rateLimit.js` -/

/-- One value of `rateLimitStore`: `{ count, resetTime, blocked, blockedUntil }`. -/
structure RateEntry where
  count : Nat
  resetTime : Nat
  blocked : Bool
  blockedUntil : Nat
deriving DecidableEq, Repr

abbrev RateStore := Store RateEntry

/-- `RATE_LIMIT_CONFIG.windowMs` — 1 minute. -/
def windowMs : Nat := 60000

/-- `RATE_LIMIT_CONFIG.maxRequests` — at most 10 requests per window per IP. -/
def maxRequests : Nat := 10

/-- `RATE_LIMIT_CONFIG.blockDuration` — the source comment says
"block 5 menit jika melanggar" (block for 5 minutes on violation). -/
def blockDuration : Nat := 300000

/-- `cleanupOldEntries(now)`: delete every entry with
`now - data.resetTime > windowMs`, regardless of its `blocked` flag. -/
def cleanupOldEntries (st : RateStore) (now : Nat) : RateStore :=
  st.filter fun p => decide ((now : Int) - (p.2.resetTime : Int) ≤ (windowMs : Int))

/-- The body of a 429 response sent by the middleware. -/
inductive RateResponse where
  /-- "Terlalu banyak permintaan. Coba lagi dalam N detik." — sent while an
  entry is blocked, with `N = ceil((blockedUntil - now)/1000)` seconds. -/
  | blockedRetry (remainingSeconds : Nat)
  /-- "Terlalu banyak permintaan. Anda diblokir sementara." — sent by
  `updateRequestCounter` on the call that trips the limit; carries no
  retry time. -/
  | blockedNow
deriving DecidableEq, Repr

/-- `updateRequestCounter(clientIP, now, res)`: create a fresh counter, or
increment and possibly trip the block; returns the updated store and the
429 body it sent, if any. -/
def updateRequestCounter (st : RateStore) (k : String) (now : Nat) :
    RateStore × Option RateResponse :=
  match storeFind st k with
  | none => (storeSet st k ⟨1, now, false, 0⟩, none)
  | some d =>
    let c := d.count + 1
    if c > maxRequests then
      (storeSet st k ⟨c, d.resetTime, true, now + blockDuration⟩,
        some RateResponse.blockedNow)
    else
      (storeSet st k ⟨c, d.resetTime, d.blocked, d.blockedUntil⟩, none)

/-- Outcome of one `rateLimitMiddleware` invocation: the store afterwards,
the 429 body sent (if any), and whether `next()` was invoked (i.e. whether
the request was forwarded to the chat handler). -/
structure MiddlewareResult where
  store : RateStore
  response : Option RateResponse
  nextCalled : Bool
deriving DecidableEq, Repr

/-- `rateLimitMiddleware(req, res, next)` for one client key at time `now`:
clean up old entries, answer 429 while blocked, drop an expired block, then
update the counter and call `next()`. -/
def rateLimitMiddleware (st : RateStore) (k : String) (now : Nat) :
    MiddlewareResult :=
  let st1 := cleanupOldEntries st now
  match storeFind st1 k with
  | some d =>
    if d.blocked ∧ now < d.blockedUntil then
      { store := st1
        response := some (RateResponse.blockedRetry
          ((d.blockedUntil - now + 999) / 1000))
        nextCalled := false }
    else
      let st2 := if d.blocked ∧ d.blockedUntil ≤ now then storeDelete st1 k else st1
      let r := updateRequestCounter st2 k now
      { store := r.1, response := r.2, nextCalled := true }
  | none =>
    let r := updateRequestCounter st1 k now
    { store := r.1, response := r.2, nextCalled := true }

/-- Run a sequence of middleware invocations for one key at the given times,
collecting for each call the 429 body (if any) and whether `next()` ran. -/
def runAdmits (st : RateStore) (k : String) :
    List Nat → RateStore × List (Option RateResponse × Bool)
  | [] => (st, [])
  | t :: ts =>
    let r := rateLimitMiddleware st k t
    let rest := runAdmits r.store k ts
    (rest.1, (r.response, r.nextCalled) :: rest.2)

/-! ## Conversation memory — `backend/routes/chat.js` -/

/-- One element of `conversation.messages`: `{ role, content, timestamp }`. -/
structure Message where
  role : String
  content : String
  timestamp : Nat
deriving DecidableEq, Repr

/-- One value of `conversationMemory`: `{ messages, lastActivity }`. -/
structure Session where
  messages : List Message
  lastActivity : Nat
deriving DecidableEq, Repr

abbrev ConvStore := Store Session

/-- `MAX_CONVERSATION_LENGTH` — at most 10 exchanges, i.e. 20 messages. -/
def MAX_CONVERSATION_LENGTH : Nat := 10

/-- `MEMORY_CLEANUP_INTERVAL` — 30 minutes of idleness before eviction. -/
def MEMORY_CLEANUP_INTERVAL : Nat := 30 * 60 * 1000

/-- `getConversationHistory(sessionId)`: return the stored session, creating
an empty one (`messages: [], lastActivity: Date.now()`) when absent; returns
the updated store together with the session the source returns. -/
def getConversationHistory (st : ConvStore) (sid : String) (now : Nat) :
    ConvStore × Session :=
  match storeFind st sid with
  | some s => (st, s)
  | none => (storeSet st sid ⟨[], now⟩, ⟨[], now⟩)

/-- `addToConversationHistory(sessionId, role, content)`: push a message,
trim to the last `MAX_CONVERSATION_LENGTH * 2` messages (`slice(-20)`), and
refresh `lastActivity`. -/
def addToConversationHistory (st : ConvStore) (sid role content : String)
    (now : Nat) : ConvStore :=
  let r := getConversationHistory st sid now
  let msgs := r.2.messages ++ [⟨role, content, now⟩]
  let msgs2 :=
    if msgs.length > MAX_CONVERSATION_LENGTH * 2 then
      msgs.drop (msgs.length - MAX_CONVERSATION_LENGTH * 2)
    else msgs
  storeSet r.1 sid ⟨msgs2, now⟩

/-- The line rendered for one message inside the context block:
`"Pengguna: <content>\n"` for a user turn, `"Sahabat Nusantara: <content>\n"`
otherwise. -/
def renderMessageLine (msg : Message) : String :=
  if msg.role == "user" then "Pengguna: " ++ msg.content ++ "\n"
  else "Sahabat Nusantara: " ++ msg.content ++ "\n"

/-- Header the source prepends before the rendered recent messages. -/
def contextHeader : String := "\n\nKonteks percakapan sebelumnya:\n"

/-- Trailing prompt marker the source appends for the new question. -/
def contextTrailer : String := "\nPertanyaan pengguna saat ini: "

/-- `buildConversationContext(messages)`: empty string on no messages;
otherwise the header, then the last 8 messages (`slice(-8)`) each rendered
on its own line by role, then the trailing prompt marker. -/
def buildConversationContext (messages : List Message) : String :=
  if messages.length == 0 then ""
  else
    let recentMessages := messages.drop (messages.length - 8)
    let context := recentMessages.foldl
      (fun ctx msg => ctx ++ renderMessageLine msg) contextHeader
    context ++ contextTrailer

/-- `cleanupOldConversations()`: delete every session whose `lastActivity`
is before `now - MEMORY_CLEANUP_INTERVAL`. -/
def cleanupOldConversations (st : ConvStore) (now : Nat) : ConvStore :=
  st.filter fun p =>
    !(decide ((p.2.lastActivity : Int) < (now : Int) - (MEMORY_CLEANUP_INTERVAL : Int)))

/-- `handleClearConversation(req, res)` on the derived session id: delete the
session when present, then answer `{ success: true, ... }`; the `Bool` is the
reported success flag (the source never reaches its error branch). -/
def handleClearConversation (st : ConvStore) (sid : String) : ConvStore × Bool :=
  (if storeHas st sid then storeDelete st sid else st, true)

/-! ## Session identity — `generateSessionId` in `backend/routes/chat.js` -/

/-- The standard base64 alphabet used by `Buffer.toString('base64')`. -/
def base64Alphabet : List Char :=
  "ABCDEFGHIJKLMNOPQRSTUVWXYZabcdefghijklmnopqrstuvwxyz0123456789+/".toList

/-- Character for one 6-bit group. -/
def b64Char (n : Nat) : Char := base64Alphabet.getD n 'A'

/-- Base64 encoding of a byte sequence (bytes as naturals below 256),
three bytes at a time with `=` padding, as `Buffer.toString('base64')`. -/
def base64Encode : List Nat → List Char
  | [] => []
  | [b1] => [b64Char (b1 / 4), b64Char (b1 % 4 * 16), '=', '=']
  | [b1, b2] =>
    [b64Char (b1 / 4), b64Char (b1 % 4 * 16 + b2 / 16), b64Char (b2 % 16 * 4), '=']
  | b1 :: b2 :: b3 :: rest =>
    b64Char (b1 / 4) :: b64Char (b1 % 4 * 16 + b2 / 16) ::
      b64Char (b2 % 16 * 4 + b3 / 64) :: b64Char (b3 % 64) :: base64Encode rest

/-- Bytes of a string as produced by `Buffer.from` (UTF-8); the model maps
each character to its code point, which coincides with the byte sequence on
the ASCII strings relevant here. -/
def strBytes (s : String) : List Nat := s.toList.map Char.toNat

/-- `generateSessionId(req)`: the first 16 characters of the base64 encoding
of `"<ip>-<userAgent>"`. -/
def generateSessionId (ip userAgent : String) : List Char :=
  (base64Encode (strBytes (ip ++ "-" ++ userAgent))).take 16

/-- The suffix of the `n` most recent elements of a list (what
`Array.prototype.slice(-n)` returns). -/
def lastN {α : Type} (n : Nat) (l : List α) : List α := l.drop (l.length - n)

/-- The message recorded by one `addToConversationHistory` call described as
`(role, content, timestamp)`. -/
def msgOf (c : String × String × Nat) : Message := ⟨c.1, c.2.1, c.2.2⟩

/-- Concatenation of the per-message lines of a transcript, written as a
plain recursion (independent of the source's fold-with-accumulator). -/
def transcript : List Message → String
  | [] => ""
  | m :: rest => renderMessageLine m ++ transcript rest

/-! ## Helper lemmas about the store model -/

theorem storeFind_storeSet_self {α : Type} (st : Store α) (k : String) (v : α) :
    storeFind (storeSet st k v) k = some v := by
  unfold storeSet
  by_cases h : storeHas st k
  · simp only [h, if_true]
    induction st with
    | nil => simp [storeHas] at h
    | cons hd tl ih =>
      cases hk : (hd.1 == k) with
      | true =>
        simp only [List.map_cons]
        rw [if_pos hk]
        simp [storeFind, List.find?_cons]
      | false =>
        have htl : storeHas tl k := by simpa [storeHas, hk] using h
        have hrec := ih htl
        simp only [List.map_cons]
        rw [if_neg (by simp [hk])]
        simp only [storeFind, List.find?_cons, hk]
        exact hrec
  · simp only [h, if_false]
    have hnone : (st.find? fun p => p.1 == k) = none := by
      rw [List.find?_eq_none]
      intro x hx hpx
      apply h
      simp only [storeHas, List.any_eq_true]
      exact ⟨x, hx, hpx⟩
    simp [storeFind, List.find?_append, hnone]

theorem storeHas_false_of_find_none {α : Type} (st : Store α) (k : String)
    (h : storeFind st k = none) : storeHas st k = false := by
  simp only [storeFind, Option.map_eq_none'] at h
  rw [List.find?_eq_none] at h
  simp only [storeHas, List.any_eq_false]
  exact h

theorem storeHas_storeDelete {α : Type} (st : Store α) (k : String) :
    storeHas (storeDelete st k) k = false := by
  simp only [storeHas, storeDelete, List.any_eq_false]
  intro p hp
  have := List.of_mem_filter hp
  simpa using this

theorem storeFind_filter_of_true {α : Type} (q f : α → Bool) (l : List α) (x : α)
    (hf : l.find? q = some x) (hx : f x = true) :
    (l.filter f).find? q = some x := by
  induction l with
  | nil => simp at hf
  | cons a tl ih =>
    cases hq : q a with
    | true =>
      simp only [List.find?_cons, hq] at hf
      cases hf
      simp [List.filter_cons, hx, List.find?_cons, hq]
    | false =>
      simp only [List.find?_cons, hq] at hf
      cases hfa : f a with
      | true => simp only [List.filter_cons, hfa, if_true, List.find?_cons, hq]; exact ih hf
      | false => simp only [List.filter_cons, hfa, if_false]; exact ih hf

theorem storeFind_eq_none_of_keys {α : Type} (st : Store α) (k : String)
    (h : ∀ p ∈ st, p.1 ≠ k) : storeFind st k = none := by
  simp only [storeFind, Option.map_eq_none']
  rw [List.find?_eq_none]
  intro x hx
  simpa using h x hx

theorem storeFind_filter_of_false {α : Type} (st : Store α) (k : String) (v : α)
    (f : String × α → Bool) (hnd : (st.map Prod.fst).Nodup)
    (hv : storeFind st k = some v) (hx : f (k, v) = false) :
    storeFind (st.filter f) k = none := by
  induction st with
  | nil => simp [storeFind] at hv
  | cons hd tl ih =>
    simp only [List.map_cons, List.nodup_cons] at hnd
    cases hk : (hd.1 == k) with
    | true =>
      have hdk : hd.1 = k := by simpa using hk
      have hdv : hd.2 = v := by
        simp only [storeFind, List.find?_cons, hk] at hv
        simpa using hv
      have hhd : hd = (k, v) := by
        cases hd
        simp_all
      rw [List.filter_cons, hhd, hx, if_neg (by simp)]
      apply storeFind_eq_none_of_keys
      intro p hp hpk
      have hmem : p.1 ∈ tl.map Prod.fst :=
        List.mem_map_of_mem _ (List.mem_of_mem_filter hp)
      rw [hpk] at hmem
      exact hnd.1 (by simpa [hdk] using hmem)
    | false =>
      have hv' : storeFind tl k = some v := by
        simpa only [storeFind, List.find?_cons, hk] using hv
      cases hfa : f hd with
      | true =>
        simp only [List.filter_cons, hfa, if_true]
        have := ih hnd.2 hv'
        simpa only [storeFind, List.find?_cons, hk] using this
      | false =>
        simp only [List.filter_cons, hfa, if_false]
        exact ih hnd.2 hv'

/-! ## Claim theorems — rate limiter -/

/-- C1: for a fresh key, the first `maxRequests` (10) calls within the window
are all admitted (no 429 body, `next()` called), and the 11th call trips the
block with `blockedUntil = now + blockDuration`.  However, contrary to the
claim, the 11th call is still forwarded to further processing
(`nextCalled = true`, because `rateLimitMiddleware` calls `next()` after
`updateRequestCounter` has already answered 429), and its 429 body is the
fixed `blockedNow` message, which carries no retry time. -/
theorem claim_C1_eleventh_call_forwarded_without_retry_time :
    ((runAdmits [] "k" (List.replicate 11 0)).2.take 10).all
        (fun r => decide (r = (none, true))) = true ∧
    (runAdmits [] "k" (List.replicate 11 0)).2.getLast? =
      some (some RateResponse.blockedNow, true) ∧
    storeFind (runAdmits [] "k" (List.replicate 11 0)).1 "k" =
      some ⟨11, 0, true, 300000⟩ := by decide

/-- C2: after a block is tripped at time 0 (so `blockedUntil = 300000`), a
call at `299000` — still before `blockedUntil` — is nevertheless admitted
with a fresh window, because `cleanupOldEntries` has already deleted the
blocked entry (`299000 - resetTime > windowMs`); the claim (and the source's
own `blockDuration` comment, "block 5 menit") says this call must be
denied. -/
theorem claim_C2_admitted_while_block_pending :
    storeFind (runAdmits [] "k" (List.replicate 11 0)).1 "k" =
      some ⟨11, 0, true, 300000⟩ ∧
    (rateLimitMiddleware (runAdmits [] "k" (List.replicate 11 0)).1 "k"
        299000).response = none ∧
    (rateLimitMiddleware (runAdmits [] "k" (List.replicate 11 0)).1 "k"
        299000).nextCalled = true ∧
    storeFind (rateLimitMiddleware (runAdmits [] "k" (List.replicate 11 0)).1
        "k" 299000).store "k" = some ⟨1, 299000, false, 0⟩ := by decide

/-- C3: `cleanupOldEntries` removes a `Blocked` entry whose `blockedUntil`
(300000) is still in the future at `now = 61000`, because its deletion test
looks only at `now - resetTime > windowMs` and ignores the `blocked` flag;
the claim says a blocked entry with a future `blockedUntil` is never removed
by the purge. -/
theorem claim_C3_purge_removes_blocked_entry :
    (61000 : Nat) < 300000 ∧
    cleanupOldEntries [("k", (⟨11, 0, true, 300000⟩ : RateEntry))] 61000 =
      [] := by decide

/-! ## Claim theorems — conversation memory -/

/-- C4, counterexample: fetching the history of an absent key — the first
step of context building in `handleChatRequest` — mutates the store: it
inserts a session with zero turns and `lastActivity = now`, before any
record call has happened.  This falsifies both "does not mutate the
conversation store" and "a session entry with zero turns never exists". -/
theorem claim_C4_counterexample :
    (getConversationHistory [] "k" 5).1 ≠ ([] : ConvStore) ∧
    storeFind (getConversationHistory [] "k" 5).1 "k" =
      some { messages := [], lastActivity := 5 } := by decide

/-- C4, amended: for a key that already has a session, the history lookup is
read-only — the store and every `lastActivity` are unchanged; for an absent
key, however, it creates an entry with zero turns and fresh `lastActivity`,
so entry creation happens at the first history lookup, not at the first
record call. -/
theorem claim_C4_history_lookup (st : ConvStore) (k : String) (now : Nat) :
    (∀ s, storeFind st k = some s → getConversationHistory st k now = (st, s)) ∧
    (storeFind st k = none →
      (getConversationHistory st k now).2.messages = [] ∧
      storeFind (getConversationHistory st k now).1 k =
        some { messages := [], lastActivity := now }) := by
  constructor
  · intro s hs
    simp [getConversationHistory, hs]
  · intro hnone
    unfold getConversationHistory
    rw [hnone]
    exact ⟨rfl, storeFind_storeSet_self st k _⟩

/-- Witness for the amended C4 at concrete inputs. -/
theorem claim_C4_witness :
    getConversationHistory [("a", (⟨[], 3⟩ : Session))] "a" 9 =
      ([("a", (⟨[], 3⟩ : Session))], (⟨[], 3⟩ : Session)) ∧
    storeFind (getConversationHistory [("a", (⟨[], 3⟩ : Session))] "b" 9).1 "b" =
      some { messages := [], lastActivity := 9 } :=
  ⟨(claim_C4_history_lookup [("a", ⟨[], 3⟩)] "a" 9).1 ⟨[], 3⟩ (by decide),
    ((claim_C4_history_lookup [("a", ⟨[], 3⟩)] "b" 9).2 (by decide)).2⟩

/-- Pushing one element onto a retained `lastN n` suffix and trimming as the
source does yields the retained suffix of the extended history. -/
theorem lastN_push {α : Type} (n : Nat) (hn : 0 < n) (acc : List α) (m : α) :
    (if (lastN n acc ++ [m]).length > n then
      (lastN n acc ++ [m]).drop ((lastN n acc ++ [m]).length - n)
    else lastN n acc ++ [m]) = lastN n (acc ++ [m]) := by
  unfold lastN
  by_cases hL : acc.length < n
  · have h0 : acc.length - n = 0 := by omega
    rw [h0, List.drop_zero]
    rw [if_neg (by simp; omega)]
    have h1 : (acc ++ [m]).length - n = 0 := by simp; omega
    rw [h1, List.drop_zero]
  · have hcond : (acc.drop (acc.length - n) ++ [m]).length > n := by simp; omega
    rw [if_pos hcond]
    have h1 : (acc.drop (acc.length - n) ++ [m]).length - n = 1 := by simp; omega
    rw [h1]
    rw [List.drop_append_of_le_length (by simp; omega)]
    rw [List.drop_drop]
    rw [List.drop_append_of_le_length (by simp; omega)]
    congr 2
    simp
    omega

/-- One `addToConversationHistory` step preserves the rolling-window
invariant: the stored messages are always the `lastN` suffix of the full
history of appended messages. -/
theorem addToConversationHistory_storeFind (st : ConvStore)
    (k role content : String) (now : Nat) (acc : List Message)
    (h : (storeFind st k = none ∧ acc = []) ∨
      (∃ t, storeFind st k =
        some ⟨lastN (MAX_CONVERSATION_LENGTH * 2) acc, t⟩)) :
    storeFind (addToConversationHistory st k role content now) k =
      some ⟨lastN (MAX_CONVERSATION_LENGTH * 2)
        (acc ++ [⟨role, content, now⟩]), now⟩ := by
  rcases h with ⟨hnone, hacc⟩ | ⟨t, hsome⟩
  · subst hacc
    unfold addToConversationHistory getConversationHistory
    rw [hnone]
    simp only [List.nil_append]
    rw [if_neg (by simp [MAX_CONVERSATION_LENGTH])]
    rw [show lastN (MAX_CONVERSATION_LENGTH * 2)
        [(⟨role, content, now⟩ : Message)] =
        [(⟨role, content, now⟩ : Message)] from by
      simp [lastN, MAX_CONVERSATION_LENGTH]]
    exact storeFind_storeSet_self _ _ _
  · unfold addToConversationHistory getConversationHistory
    rw [hsome]
    simp only
    rw [storeFind_storeSet_self]
    rw [lastN_push (MAX_CONVERSATION_LENGTH * 2)
      (by simp [MAX_CONVERSATION_LENGTH]) acc]

/-- Folding a sequence of `addToConversationHistory` calls preserves the
rolling-window invariant. -/
theorem foldl_addToConversationHistory (k : String)
    (calls : List (String × String × Nat)) :
    ∀ (st : ConvStore) (acc : List Message),
      ((storeFind st k = none ∧ acc = []) ∨
        (∃ t, storeFind st k =
          some ⟨lastN (MAX_CONVERSATION_LENGTH * 2) acc, t⟩)) →
      ((storeFind (calls.foldl
            (fun s c => addToConversationHistory s k c.1 c.2.1 c.2.2) st) k =
              none ∧ acc ++ calls.map msgOf = []) ∨
        (∃ t, storeFind (calls.foldl
            (fun s c => addToConversationHistory s k c.1 c.2.1 c.2.2) st) k =
          some ⟨lastN (MAX_CONVERSATION_LENGTH * 2)
            (acc ++ calls.map msgOf), t⟩)) := by
  induction calls with
  | nil => intro st acc h; simpa using h
  | cons c cs ih =>
    intro st acc h
    have hstep := addToConversationHistory_storeFind st k c.1 c.2.1 c.2.2 acc h
    have := ih (addToConversationHistory st k c.1 c.2.1 c.2.2)
      (acc ++ [msgOf c]) (Or.inr ⟨c.2.2, by simpa [msgOf] using hstep⟩)
    simpa [List.append_assoc] using this

/-- C5: starting from an empty store, after any nonempty sequence of
`addToConversationHistory` calls on one key, the stored message list is
exactly the suffix of the `MAX_CONVERSATION_LENGTH * 2` most recently
appended messages in arrival order, and its length is at most
`MAX_CONVERSATION_LENGTH * 2` (20); since this holds for every sequence, it
holds after each call of any sequence. -/
theorem claim_C5_rolling_window (calls : List (String × String × Nat))
    (k : String) (h : calls ≠ []) :
    ∃ t, storeFind (calls.foldl
        (fun s c => addToConversationHistory s k c.1 c.2.1 c.2.2)
        ([] : ConvStore)) k =
      some ⟨lastN (MAX_CONVERSATION_LENGTH * 2) (calls.map msgOf), t⟩ ∧
      (lastN (MAX_CONVERSATION_LENGTH * 2) (calls.map msgOf)).length ≤
        MAX_CONVERSATION_LENGTH * 2 := by
  have hrun := foldl_addToConversationHistory k calls [] []
    (Or.inl ⟨rfl, rfl⟩)
  rcases hrun with ⟨_, habs⟩ | ⟨t, hfind⟩
  · exfalso
    apply h
    have hmap : calls.map msgOf = [] := by simpa using habs
    exact List.map_eq_nil_iff.mp hmap
  · refine ⟨t, by simpa using hfind, ?_⟩
    simp only [lastN, List.length_drop]
    omega

/-- Witness for C5 at a concrete two-call sequence. -/
theorem claim_C5_witness :
    ∃ t, storeFind (([("user", "halo", 1), ("assistant", "hai", 2)] :
          List (String × String × Nat)).foldl
        (fun s c => addToConversationHistory s "k" c.1 c.2.1 c.2.2)
        ([] : ConvStore)) "k" =
      some ⟨lastN (MAX_CONVERSATION_LENGTH * 2)
        (([("user", "halo", 1), ("assistant", "hai", 2)] :
          List (String × String × Nat)).map msgOf), t⟩ ∧
      (lastN (MAX_CONVERSATION_LENGTH * 2)
        (([("user", "halo", 1), ("assistant", "hai", 2)] :
          List (String × String × Nat)).map msgOf)).length ≤
        MAX_CONVERSATION_LENGTH * 2 :=
  claim_C5_rolling_window [("user", "halo", 1), ("assistant", "hai", 2)] "k"
    (by decide)

/-- C6: the idle purge removes a stored session exactly when
`now - lastActivity > MEMORY_CLEANUP_INTERVAL` (strictly more than 30
minutes idle); a session idle for at most the interval survives unchanged,
and every other non-idle session is likewise unaffected. -/
theorem claim_C6_idle_expiry (st : ConvStore) (key : String) (s : Session)
    (now : Nat) (hnd : (st.map Prod.fst).Nodup)
    (hk : storeFind st key = some s) :
    (((now : Int) - (s.lastActivity : Int) > (MEMORY_CLEANUP_INTERVAL : Int)) →
      storeFind (cleanupOldConversations st now) key = none) ∧
    (((now : Int) - (s.lastActivity : Int) ≤ (MEMORY_CLEANUP_INTERVAL : Int)) →
      storeFind (cleanupOldConversations st now) key = some s) ∧
    (∀ k2 s2, storeFind st k2 = some s2 →
      ((now : Int) - (s2.lastActivity : Int) ≤ (MEMORY_CLEANUP_INTERVAL : Int)) →
      storeFind (cleanupOldConversations st now) k2 = some s2) := by
  have hkeep : ∀ k2 s2, storeFind st k2 = some s2 →
      ((now : Int) - (s2.lastActivity : Int) ≤ (MEMORY_CLEANUP_INTERVAL : Int)) →
      storeFind (cleanupOldConversations st now) k2 = some s2 := by
    intro k2 s2 hk2 hlive
    simp only [storeFind, Option.map_eq_some'] at hk2
    obtain ⟨p, hp1, hp2⟩ := hk2
    have hfp : (fun q : String × Session =>
        !(decide ((q.2.lastActivity : Int) <
          (now : Int) - (MEMORY_CLEANUP_INTERVAL : Int)))) p = true := by
      show (!(decide ((p.2.lastActivity : Int) <
        (now : Int) - (MEMORY_CLEANUP_INTERVAL : Int)))) = true
      rw [hp2]
      simp only [Bool.not_eq_true', decide_eq_false_iff_not, not_lt]
      omega
    have hfind := storeFind_filter_of_true (fun p => p.1 == k2)
      (fun q : String × Session =>
        !(decide ((q.2.lastActivity : Int) <
          (now : Int) - (MEMORY_CLEANUP_INTERVAL : Int)))) st p hp1 hfp
    unfold cleanupOldConversations storeFind
    rw [hfind]
    simp [hp2]
  refine ⟨?_, fun hlive => hkeep key s hk hlive, hkeep⟩
  intro hidle
  unfold cleanupOldConversations
  apply storeFind_filter_of_false st key s _ hnd hk
  show (!(decide ((s.lastActivity : Int) <
    (now : Int) - (MEMORY_CLEANUP_INTERVAL : Int)))) = false
  simp only [Bool.not_eq_false', decide_eq_true_eq]
  omega

/-- Witness for C6: with sessions `a` (idle since 100) and `b` (active at
5000000) at `now = 2000000`, the purge removes `a` and keeps `b`. -/
theorem claim_C6_witness :
    storeFind (cleanupOldConversations
      [("a", (⟨[], 100⟩ : Session)), ("b", (⟨[], 1900000⟩ : Session))]
      2000000) "a" = none ∧
    storeFind (cleanupOldConversations
      [("a", (⟨[], 100⟩ : Session)), ("b", (⟨[], 1900000⟩ : Session))]
      2000000) "b" = some ⟨[], 1900000⟩ :=
  ⟨(claim_C6_idle_expiry
      [("a", ⟨[], 100⟩), ("b", ⟨[], 1900000⟩)] "a" ⟨[], 100⟩ 2000000
      (by decide) (by decide)).1 (by decide),
    ((claim_C6_idle_expiry
      [("a", ⟨[], 100⟩), ("b", ⟨[], 1900000⟩)] "b" ⟨[], 1900000⟩ 2000000
      (by decide) (by decide)).2).1 (by decide)⟩

/-- Folding the accumulator-based rendering of the source equals the plain
recursive transcript concatenation. -/
theorem foldl_renderMessageLine (l : List Message) :
    ∀ init : String,
      l.foldl (fun a m => a ++ renderMessageLine m) init =
        init ++ transcript l := by
  induction l with
  | nil => intro init; simp [transcript]
  | cons m tl ih =>
    intro init
    simp only [List.foldl_cons, transcript, ih, String.append_assoc]

/-- C7: the context for a key with no turns is the empty string; otherwise it
is the header, then the transcript of the at most 8 most recent messages in
stored order — each message on its own line, rendered by its role label via
`renderMessageLine` — and the whole string ends in the trailing prompt marker
`contextTrailer`. -/
theorem claim_C7_context_rendering (ms : List Message) :
    (ms = [] → buildConversationContext ms = "") ∧
    (ms ≠ [] →
      buildConversationContext ms =
        contextHeader ++ transcript (lastN 8 ms) ++ contextTrailer ∧
      (lastN 8 ms).length ≤ 8 ∧
      ∃ p, buildConversationContext ms = p ++ contextTrailer) := by
  constructor
  · intro h
    subst h
    rfl
  · intro h
    have hbuild : buildConversationContext ms =
        contextHeader ++ transcript (lastN 8 ms) ++ contextTrailer := by
      unfold buildConversationContext
      rw [if_neg (by simp only [beq_iff_eq, List.length_eq_zero]; exact h)]
      show (List.foldl (fun ctx msg => ctx ++ renderMessageLine msg)
          contextHeader (ms.drop (ms.length - 8))) ++ contextTrailer =
        contextHeader ++ transcript (lastN 8 ms) ++ contextTrailer
      rw [foldl_renderMessageLine]
      rfl
    refine ⟨hbuild, ?_, ⟨contextHeader ++ transcript (lastN 8 ms), hbuild⟩⟩
    simp only [lastN, List.length_drop]
    omega

/-- Witness for C7: the empty case and the spec's Borobudur example. -/
theorem claim_C7_witness :
    buildConversationContext [] = "" ∧
    buildConversationContext
        [⟨"user", "Apa itu Borobudur?", 1⟩,
          ⟨"assistant", "Borobudur adalah candi Buddha...", 2⟩] =
      contextHeader ++ transcript (lastN 8
        [⟨"user", "Apa itu Borobudur?", 1⟩,
          ⟨"assistant", "Borobudur adalah candi Buddha...", 2⟩]) ++
        contextTrailer :=
  ⟨(claim_C7_context_rendering []).1 rfl,
    ((claim_C7_context_rendering
        [⟨"user", "Apa itu Borobudur?", 1⟩,
          ⟨"assistant", "Borobudur adalah candi Buddha...", 2⟩]).2
      (by simp)).1⟩

/-- C8: clearing is never an error and is idempotent — clearing an absent
key reports success and leaves the store unchanged (hence its entry count
unchanged), the success flag is always `true`, and clearing twice equals
clearing once. -/
theorem claim_C8_idempotent_clear (st : ConvStore) (k : String) :
    (storeFind st k = none → handleClearConversation st k = (st, true)) ∧
    (handleClearConversation st k).2 = true ∧
    handleClearConversation (handleClearConversation st k).1 k =
      ((handleClearConversation st k).1, true) := by
  refine ⟨?_, rfl, ?_⟩
  · intro hnone
    simp [handleClearConversation, storeHas_false_of_find_none st k hnone]
  · by_cases hhas : storeHas st k = true
    · simp [handleClearConversation, hhas, storeHas_storeDelete]
    · have hf : storeHas st k = false := by simpa using hhas
      simp [handleClearConversation, hf]

/-- Witness for C8 at a concrete store without the key. -/
theorem claim_C8_witness :
    handleClearConversation [("a", (⟨[], 3⟩ : Session))] "zzz" =
      ([("a", (⟨[], 3⟩ : Session))], true) :=
  (claim_C8_idempotent_clear [("a", ⟨[], 3⟩)] "zzz").1 (by decide)

/-- The first `4 * n` base64 characters depend only on the first `3 * n`
input bytes. -/
theorem base64Encode_take (n : Nat) :
    ∀ l : List Nat,
      (base64Encode l).take (4 * n) =
        (base64Encode (l.take (3 * n))).take (4 * n) := by
  induction n with
  | zero => intro l; simp
  | succ n ih =>
    intro l
    match l with
    | [] => simp
    | [b1] =>
      have t1 : List.take (3 * (n + 1)) [b1] = [b1] :=
        List.take_of_length_le (by simp; omega)
      rw [t1]
    | [b1, b2] =>
      have t2 : List.take (3 * (n + 1)) [b1, b2] = [b1, b2] :=
        List.take_of_length_le (by simp; omega)
      rw [t2]
    | b1 :: b2 :: b3 :: rest =>
      have h3 : 3 * (n + 1) = 3 * n + 1 + 1 + 1 := by omega
      have h4 : 4 * (n + 1) = 4 * n + 1 + 1 + 1 + 1 := by omega
      simp only [h3, h4, List.take_succ_cons, base64Encode]
      rw [ih rest]
      rfl

/-- C10: the session key is the first 16 base64 characters of
`"<ip>-<userAgent>"`, which encode only its first 12 bytes; any two requests
whose identity strings agree on those 12 bytes receive the same session key,
even when the full IP/User-Agent pairs differ. -/
theorem claim_C10_session_key_collision (ip1 ua1 ip2 ua2 : String)
    (h : (strBytes (ip1 ++ "-" ++ ua1)).take 12 =
      (strBytes (ip2 ++ "-" ++ ua2)).take 12) :
    generateSessionId ip1 ua1 = generateSessionId ip2 ua2 := by
  unfold generateSessionId
  have e1 := base64Encode_take 4 (strBytes (ip1 ++ "-" ++ ua1))
  have e2 := base64Encode_take 4 (strBytes (ip2 ++ "-" ++ ua2))
  norm_num at e1 e2
  rw [e1, e2, h]

/-- Witness for C10: two requests from IP `10.0.0.1` with different
User-Agent strings that share the 12-byte prefix `"10.0.0.1-Moz"` collide on
one session key. -/
theorem claim_C10_witness :
    ("Mozilla/5.0" : String) ≠ "MozThirdParty" ∧
    generateSessionId "10.0.0.1" "Mozilla/5.0" =
      generateSessionId "10.0.0.1" "MozThirdParty" :=
  ⟨by decide,
    claim_C10_session_key_collision "10.0.0.1" "Mozilla/5.0" "10.0.0.1"
      "MozThirdParty" (by decide)⟩
